import Mathlib

/-!
Shallow embedding of `core/system/rule_manager.go` from sentinel-golang.

The package-level mutable state of the Go file is the variable `ruleMap`
(type `RuleMap = map[MetricType][]*Rule`) guarded by `ruleMapMux`, plus the
registered `ruleUpdateHandler`. We model the guarded state as an explicit
value of type `SysState` threaded through the operations, and the registered
handler as an explicit argument (registration via `RegisterRuleUpdateHandler`
just replaces that argument). The Go map is embedded as an association list
of `(key, bucket)` entries; Go map iteration order is unspecified, so all
set-level statements about snapshots are stated up to permutation.

Go `*Rule` pointers in the candidate slice are embedded as `Option Rule`
(`none` is the nil pointer); inside the store value semantics suffice for
everything except the copy-vs-share distinction of `GetRules`/`getRules`,
which is treated separately with an explicit heap model (`Store` below).
`TriggerCount` is Go `float64`, used only in order comparisons against the
exact constants 0 and 1, so it is embedded as `ℚ`; `MetricType` is Go
`uint32`, embedded as `ℕ` (only `<`/`=` comparisons occur, no arithmetic).
-/

namespace SentinelSystem

/-- Modelled from the spec: the `MetricType` enumeration is declared in
`core/system/rule.go`, which is outside the provided source. Per spec §3 it
enumerates five system signals (load average, average response time,
concurrency, inbound QPS, CPU usage ratio); the Go type is an unsigned
integer, so values outside the range are representable and must be rejected
by validation. -/
abbrev MetricType := Nat

/-- Modelled from the spec: CPU-usage is the metric type whose threshold is a
fraction in [0.0, 1.0] (spec §3, §4.1). -/
def CpuUsage : MetricType := 4

/-- Modelled from the spec: sentinel value one past the last valid metric
type; `rule.MetricType >= MetricTypeSize` is the out-of-range test in
`IsValidSystemRule`. -/
def MetricTypeSize : MetricType := 5

/-- Modelled from the spec: the `Rule` value (spec §3) carries the governed
metric type and the numeric threshold; the optional adaptive-strategy
parameters are passed through unchanged and play no role in this core, so
they are omitted. -/
structure Rule where
  MetricType : Nat
  TriggerCount : ℚ
deriving DecidableEq, Repr

/-- Go `error` values surfaced by this core, embedded as their message. -/
abbrev Err := String

/-- Embedding of `type RuleMap map[MetricType][]*Rule`: an association list
of `(metric type, bucket)` entries. -/
abbrev RuleMap := List (Nat × List Rule)

/-- The package-level `ruleMap` variable (the single current index). -/
abbrev SysState := RuleMap

/-- Go map read `m[k]` (with its `ok` flag): first entry with the key. -/
def mapFind : RuleMap → Nat → Option (List Rule)
  | [], _ => none
  | (k', v') :: m, k => if k' = k then some v' else mapFind m k

/-- Go map assignment `m[k] = v`: overwrite the entry if the key is present,
otherwise add a fresh entry. -/
def mapAssign : RuleMap → Nat → List Rule → RuleMap
  | [], k, v => [(k, v)]
  | (k', v') :: m, k, v => if k' = k then (k, v) :: m else (k', v') :: mapAssign m k v

/-- Embedding of `IsValidSystemRule` (`rule_manager.go` lines 114-129): nil
rule, negative threshold, out-of-range metric type, and CPU fraction above
1 are rejected, in that order. -/
def IsValidSystemRule (rule : Option Rule) : Option Err :=
  match rule with
  | none => some "nil Rule"
  | some r =>
    if r.TriggerCount < 0 then some "negative threshold"
    else if r.MetricType ≥ MetricTypeSize then some "invalid metric type"
    else if r.MetricType = CpuUsage ∧ r.TriggerCount > 1 then
      some "invalid CPU usage, valid range is [0.0, 1.0]"
    else none

/-- Loop body of `buildRuleMap` for one candidate: skip it when validation
fails, otherwise append it to the bucket of its own metric type, creating
the bucket when absent (`rule_manager.go` lines 95-109). The call to
`misc.RegisterRuleCheckSlotForResource` is a side effect on an external
collaborator with no bearing on the store and is not modelled. -/
def addCandidate (m : RuleMap) (o : Option Rule) : RuleMap :=
  if (IsValidSystemRule o).isSome then m
  else
    match o with
    | some rule =>
      match mapFind m rule.MetricType with
      | none => mapAssign m rule.MetricType [rule]
      | some rulesOfRes => mapAssign m rule.MetricType (rulesOfRes ++ [rule])
    | none => m

/-- Embedding of `buildRuleMap` (`rule_manager.go` lines 88-111): the early
return on `len(rules) == 0` yields the fresh empty map, otherwise the
candidates are folded in input order. -/
def buildRuleMap (rules : List (Option Rule)) : RuleMap :=
  if rules.isEmpty then [] else rules.foldl addCandidate []

/-- Embedding of `GetRules` (`rule_manager.go` lines 26-39): under the read
lock all buckets are concatenated, then each rule is dereferenced into a
fresh value slice; with value semantics that is the concatenation itself. -/
def GetRules (s : SysState) : List Rule :=
  (s.map Prod.snd).flatten

/-- Embedding of `onRuleUpdate` (`rule_manager.go` lines 72-86): under the
write lock the current index is replaced wholesale; it always returns nil
(logging is external). -/
def onRuleUpdate (r : RuleMap) (_s : SysState) : Option Err × SysState :=
  (none, r)

/-- Embedding of `type RuleUpdateHandler`: a function receiving the installer
callback and the candidate index, acting on the store state. -/
abbrev Handler := (RuleMap → SysState → Option Err × SysState) → RuleMap → SysState → Option Err × SysState

/-- Embedding of `defaultRuleUpdateHandler` (`rule_manager.go` lines
135-137): immediately and unconditionally invokes the callback. -/
def defaultRuleUpdateHandler : Handler :=
  fun cb rules s => cb rules s

/-- Embedding of `LoadRules` (`rule_manager.go` lines 55-64): build the index,
hand it to the currently registered handler together with `onRuleUpdate`;
on a handler error return `(false, err)` (the error is logged), otherwise
`(true, nil)`. The registered handler is passed explicitly. -/
def LoadRules (h : Handler) (rules : List (Option Rule)) (s : SysState) :
    (Bool × Option Err) × SysState :=
  let m := buildRuleMap rules
  match h onRuleUpdate m s with
  | (some e, s') => ((false, some e), s')
  | (none, s') => ((true, none), s')

/-- Embedding of `ClearRules` (`rule_manager.go` lines 67-70):
`LoadRules(nil)`, discarding the boolean. -/
def ClearRules (h : Handler) (s : SysState) : Option Err × SysState :=
  let r := LoadRules h [] s
  (r.1.2, r.2)

/-- The candidates that survive validation, in input order (the rules that
`buildRuleMap` accepts). -/
def acceptedRules (rules : List (Option Rule)) : List Rule :=
  rules.filterMap (fun o => if (IsValidSystemRule o).isSome then none else o)

/-- The accepted rules of a given metric type, in input order: the contents
`buildRuleMap` is expected to put into the bucket of that type. -/
def typeBucket (rules : List (Option Rule)) (k : Nat) : List Rule :=
  (acceptedRules rules).filter (fun r => r.MetricType == k)

/-- A handler that vets the candidate index and, when it rejects, returns its
error WITHOUT invoking the installer callback; otherwise it delegates to the
callback (the shape of a well-behaved custom `RuleUpdateHandler`). -/
def checkedHandler (check : RuleMap → Option Err) : Handler :=
  fun cb m s =>
    match check m with
    | some e => (some e, s)
    | none => cb m s

/-- A legal `RuleUpdateHandler` that first invokes the installer callback
(thereby swapping in the new index) and then reports an error anyway. -/
def installThenFailHandler : Handler :=
  fun cb m s =>
    let r := cb m s
    (some "handler failed after install", r.2)

/-! ### Heap-level model for the copy semantics of `GetRules`

The value-level model above cannot distinguish Go's `[]Rule` (copies) from
`[]*Rule` (shared pointers). To settle the copy claim we model memory
explicitly: the heap is a list of `Rule` cells, a `*Rule` is an index into
it, and the store's buckets hold pointers, exactly as in
`map[MetricType][]*Rule`. -/

/-- Pointer-level store: `heap` is memory holding `Rule` values, `buckets`
is the `ruleMap` whose buckets hold pointers (heap indices). -/
structure Store where
  heap : List Rule
  buckets : List (Nat × List Nat)

/-- All pointers held by the store's current index. -/
def Store.bucketAddrs (st : Store) : List Nat :=
  (st.buckets.map Prod.snd).flatten

/-- Pointer-level embedding of `GetRules` (`rule_manager.go` lines 26-39):
collect the pointers of all buckets, then build the returned slice by
dereferencing each pointer into a value (`ret = append(ret, *r)`). -/
def Store.getRulesCopy (st : Store) : List Rule :=
  st.bucketAddrs.map (fun a => st.heap.getD a ⟨0, 0⟩)

/-- Pointer-level embedding of the internal `getRules` (`rule_manager.go`
lines 43-52): the pointers themselves are returned, shared with the store. -/
def Store.getRulesShared (st : Store) : List Nat :=
  st.bucketAddrs

/-- A caller mutating a rule through a pointer: overwrite the heap cell. -/
def Store.writeAt (st : Store) (a : Nat) (v : Rule) : Store :=
  { st with heap := st.heap.set a v }

/-- Allocation-aware version of `GetRules`: the returned slice lives in
freshly allocated cells (appended at the end of the heap), holding copies of
the rules; the result is the list of addresses of those fresh cells together
with the post-call store. -/
def Store.getRulesAlloc (st : Store) : List Nat × Store :=
  let vals := st.getRulesCopy
  ((List.range vals.length).map (fun i => i + st.heap.length),
    { st with heap := st.heap ++ vals })

/-! ### Basic lemmas about the map embedding -/

lemma getRules_nil : GetRules [] = [] := rfl

lemma getRules_cons (k : Nat) (v : List Rule) (m : RuleMap) :
    GetRules ((k, v) :: m) = v ++ GetRules m := by
  simp [GetRules]

lemma mapFind_mapAssign (m : RuleMap) (k : Nat) (v : List Rule) (k' : Nat) :
    mapFind (mapAssign m k v) k' = if k = k' then some v else mapFind m k' := by
  induction m with
  | nil => simp [mapFind, mapAssign]
  | cons p m ih =>
    obtain ⟨pk, pv⟩ := p
    by_cases hpk : pk = k
    · subst hpk
      simp only [mapAssign, if_pos rfl, mapFind]
      by_cases hk : pk = k' <;> simp [hk]
    · simp only [mapAssign, if_neg hpk, mapFind, ih]
      by_cases hk : pk = k'
      · subst hk
        rw [if_pos rfl, if_neg (Ne.symm hpk), if_pos rfl]
      · simp [hk]

lemma getRules_mapAssign_new (m : RuleMap) (k : Nat) (v : List Rule)
    (h : mapFind m k = none) : GetRules (mapAssign m k v) = GetRules m ++ v := by
  induction m with
  | nil => simp [mapAssign, getRules_cons, getRules_nil]
  | cons p m ih =>
    obtain ⟨pk, pv⟩ := p
    simp only [mapFind] at h
    by_cases hpk : pk = k
    · simp [hpk] at h
    · simp only [if_neg hpk] at h
      simp [mapAssign, hpk, getRules_cons, ih h]

lemma getRules_mapAssign_append (m : RuleMap) (k : Nat) (l : List Rule) (r : Rule)
    (h : mapFind m k = some l) :
    List.Perm (GetRules (mapAssign m k (l ++ [r]))) (GetRules m ++ [r]) := by
  induction m with
  | nil => simp [mapFind] at h
  | cons p m ih =>
    obtain ⟨pk, pv⟩ := p
    simp only [mapFind] at h
    by_cases hpk : pk = k
    · rw [if_pos hpk] at h
      obtain rfl : pv = l := by injection h
      subst hpk
      simp only [mapAssign, if_pos rfl, getRules_cons]
      simpa [getRules_cons, List.append_assoc] using
        List.Perm.append_left pv (@List.perm_append_comm _ [r] (GetRules m))
    · rw [if_neg hpk] at h
      simp only [mapAssign, if_neg hpk, getRules_cons]
      simpa [List.append_assoc] using List.Perm.append_left pv (ih h)

lemma addCandidate_invalid (m : RuleMap) (o : Option Rule)
    (h : (IsValidSystemRule o).isSome) : addCandidate m o = m := by
  simp [addCandidate, h]

lemma addCandidate_valid (m : RuleMap) (r : Rule)
    (h : IsValidSystemRule (some r) = none) :
    addCandidate m (some r) =
      mapAssign m r.MetricType ((mapFind m r.MetricType).getD [] ++ [r]) := by
  simp only [addCandidate, h, Option.isSome_none, Bool.false_eq_true, if_false]
  cases hf : mapFind m r.MetricType <;> simp [hf]

lemma getRules_addCandidate (m : RuleMap) (o : Option Rule) :
    List.Perm (GetRules (addCandidate m o))
      (GetRules m ++ (if (IsValidSystemRule o).isSome then [] else o.toList)) := by
  by_cases hv : (IsValidSystemRule o).isSome
  · simp [addCandidate_invalid m o hv, hv]
  · have hvn : IsValidSystemRule o = none := Option.not_isSome_iff_eq_none.mp hv
    match o with
    | none => simp [IsValidSystemRule] at hvn
    | some r =>
      rw [addCandidate_valid m r hvn]
      simp only [hv, if_false, Option.toList_some]
      cases hf : mapFind m r.MetricType with
      | none =>
        rw [getRules_mapAssign_new m _ _ hf]
        simp
      | some l =>
        have := getRules_mapAssign_append m r.MetricType l r hf
        simpa [hf] using this

lemma acceptedRules_nil : acceptedRules [] = [] := rfl

lemma acceptedRules_cons (o : Option Rule) (rs : List (Option Rule)) :
    acceptedRules (o :: rs) =
      (if (IsValidSystemRule o).isSome then [] else o.toList) ++ acceptedRules rs := by
  by_cases hv : (IsValidSystemRule o).isSome
  · simp [acceptedRules, List.filterMap_cons, hv]
  · have hvn : IsValidSystemRule o = none := Option.not_isSome_iff_eq_none.mp hv
    match o with
    | none => simp [IsValidSystemRule] at hvn
    | some r => simp [acceptedRules, List.filterMap_cons, hv]

lemma getRules_foldl (rules : List (Option Rule)) (m : RuleMap) :
    List.Perm (GetRules (rules.foldl addCandidate m)) (GetRules m ++ acceptedRules rules) := by
  induction rules generalizing m with
  | nil => simp [acceptedRules_nil]
  | cons o rs ih =>
    simp only [List.foldl_cons, acceptedRules_cons]
    have h1 := ih (addCandidate m o)
    have h2 := List.Perm.append_right (acceptedRules rs) (getRules_addCandidate m o)
    simpa [List.append_assoc] using h1.trans h2

lemma buildRuleMap_eq_foldl (rules : List (Option Rule)) :
    buildRuleMap rules = rules.foldl addCandidate [] := by
  cases rules <;> rfl

lemma getRules_buildRuleMap (rules : List (Option Rule)) :
    List.Perm (GetRules (buildRuleMap rules)) (acceptedRules rules) := by
  rw [buildRuleMap_eq_foldl]
  simpa [getRules_nil] using getRules_foldl rules []

lemma loadRules_default (rules : List (Option Rule)) (s : SysState) :
    LoadRules defaultRuleUpdateHandler rules s = ((true, none), buildRuleMap rules) := rfl

/-! ### Membership and bucket-content lemmas -/

lemma mem_mapAssign (m : RuleMap) (k : Nat) (v : List Rule) (p : Nat × List Rule)
    (hp : p ∈ mapAssign m k v) : p = (k, v) ∨ p ∈ m := by
  induction m with
  | nil => simpa [mapAssign] using hp
  | cons q m ih =>
    obtain ⟨qk, qv⟩ := q
    by_cases hqk : qk = k
    · simp only [mapAssign, if_pos hqk, List.mem_cons] at hp
      rcases hp with h | h
      · exact Or.inl h
      · exact Or.inr (List.mem_cons_of_mem _ h)
    · simp only [mapAssign, if_neg hqk, List.mem_cons] at hp
      rcases hp with h | h
      · exact Or.inr (h ▸ List.mem_cons_self _ _)
      · rcases ih h with h' | h'
        · exact Or.inl h'
        · exact Or.inr (List.mem_cons_of_mem _ h')

lemma mapFind_mem (m : RuleMap) (k : Nat) (l : List Rule)
    (h : mapFind m k = some l) : (k, l) ∈ m := by
  induction m with
  | nil => simp [mapFind] at h
  | cons q m ih =>
    obtain ⟨qk, qv⟩ := q
    simp only [mapFind] at h
    by_cases hqk : qk = k
    · rw [if_pos hqk] at h
      obtain rfl : qv = l := by injection h
      exact hqk ▸ List.mem_cons_self _ _
    · rw [if_neg hqk] at h
      exact List.mem_cons_of_mem _ (ih h)

/-- The index invariant: every rule sits in the bucket of its own metric type
and has passed validation. -/
def WellBucketed (m : RuleMap) : Prop :=
  ∀ p ∈ m, ∀ r ∈ p.2, r.MetricType = p.1 ∧ IsValidSystemRule (some r) = none

lemma wellBucketed_addCandidate (m : RuleMap) (o : Option Rule)
    (hm : WellBucketed m) : WellBucketed (addCandidate m o) := by
  by_cases hv : (IsValidSystemRule o).isSome
  · rwa [addCandidate_invalid m o hv]
  · have hvn : IsValidSystemRule o = none := Option.not_isSome_iff_eq_none.mp hv
    match o with
    | none => simp [IsValidSystemRule] at hvn
    | some r =>
      rw [addCandidate_valid m r hvn]
      intro p hp r' hr'
      rcases mem_mapAssign _ _ _ _ hp with h | h
      · subst h
        cases hf : mapFind m r.MetricType with
        | none =>
          simp only [hf, Option.getD_none, List.nil_append, List.mem_singleton] at hr'
          subst hr'
          exact ⟨rfl, hvn⟩
        | some l =>
          simp only [hf, Option.getD_some, List.mem_append, List.mem_singleton] at hr'
          rcases hr' with h' | h'
          · exact hm _ (mapFind_mem m _ l hf) r' h'
          · subst h'
            exact ⟨rfl, hvn⟩
      · exact hm p h r' hr'

lemma wellBucketed_foldl (rules : List (Option Rule)) (m : RuleMap)
    (hm : WellBucketed m) : WellBucketed (rules.foldl addCandidate m) := by
  induction rules generalizing m with
  | nil => simpa
  | cons o rs ih => exact ih _ (wellBucketed_addCandidate m o hm)

lemma wellBucketed_buildRuleMap (rules : List (Option Rule)) :
    WellBucketed (buildRuleMap rules) := by
  rw [buildRuleMap_eq_foldl]
  exact wellBucketed_foldl rules [] (by intro p hp; simp at hp)

lemma typeBucket_cons (o : Option Rule) (rs : List (Option Rule)) (k : Nat) :
    typeBucket (o :: rs) k =
      ((if (IsValidSystemRule o).isSome then [] else o.toList).filter
        (fun r => r.MetricType == k)) ++ typeBucket rs k := by
  simp [typeBucket, acceptedRules_cons, List.filter_append]

lemma mapFind_foldl (rules : List (Option Rule)) (m : RuleMap) (k : Nat) :
    mapFind (rules.foldl addCandidate m) k =
      match mapFind m k with
      | some l => some (l ++ typeBucket rules k)
      | none => if typeBucket rules k = [] then none else some (typeBucket rules k) := by
  induction rules generalizing m with
  | nil =>
    cases hf : mapFind m k <;> simp [typeBucket, acceptedRules_nil, hf]
  | cons o rs ih =>
    simp only [List.foldl_cons]
    by_cases hv : (IsValidSystemRule o).isSome
    · rw [addCandidate_invalid m o hv, ih, typeBucket_cons]
      simp [hv]
    · have hvn : IsValidSystemRule o = none := Option.not_isSome_iff_eq_none.mp hv
      match o with
      | none => simp [IsValidSystemRule] at hvn
      | some r =>
        rw [addCandidate_valid m r hvn, ih, typeBucket_cons]
        simp only [hv, if_false, Option.toList_some, List.filter_cons]
        by_cases hk : r.MetricType = k
        · subst hk
          rw [mapFind_mapAssign]
          simp only [if_pos rfl, beq_self_eq_true, if_pos trivial]
          cases hf : mapFind m r.MetricType with
          | none => simp [List.filter_nil]
          | some l => simp [List.filter_nil, List.append_assoc]
        · have hne : (r.MetricType == k) = false := by simp [hk]
          rw [mapFind_mapAssign, if_neg hk]
          cases hf : mapFind m k <;> simp [hf, hne]

lemma mapFind_buildRuleMap (rules : List (Option Rule)) (k : Nat) :
    mapFind (buildRuleMap rules) k =
      if typeBucket rules k = [] then none else some (typeBucket rules k) := by
  rw [buildRuleMap_eq_foldl, mapFind_foldl]
  simp [mapFind]

lemma foldl_all_invalid (rules : List (Option Rule)) (m : RuleMap)
    (h : ∀ o ∈ rules, (IsValidSystemRule o).isSome) :
    rules.foldl addCandidate m = m := by
  induction rules generalizing m with
  | nil => rfl
  | cons o rs ih =>
    rw [List.foldl_cons, addCandidate_invalid m o (h o (List.mem_cons_self _ _))]
    exact ih m (fun o' ho' => h o' (List.mem_cons_of_mem _ ho'))

lemma buildRuleMap_all_invalid (rules : List (Option Rule))
    (h : ∀ o ∈ rules, (IsValidSystemRule o).isSome) : buildRuleMap rules = [] := by
  rw [buildRuleMap_eq_foldl, foldl_all_invalid rules [] h]

lemma acceptedRules_all_valid (rules : List (Option Rule))
    (h : ∀ o ∈ rules, IsValidSystemRule o = none) :
    acceptedRules rules = rules.filterMap id := by
  induction rules with
  | nil => rfl
  | cons o rs ih =>
    have ho := h o (List.mem_cons_self _ _)
    rw [acceptedRules_cons]
    match o with
    | none => simp [IsValidSystemRule] at ho
    | some r =>
      simp only [ho, Option.isSome_none, Bool.false_eq_true, if_false, Option.toList_some,
        List.filterMap_cons, id]
      rw [ih (fun o' ho' => h o' (List.mem_cons_of_mem _ ho'))]
      rfl

lemma foldl_addCandidate_accepted (rules : List (Option Rule)) (m : RuleMap) :
    rules.foldl addCandidate m = ((acceptedRules rules).map some).foldl addCandidate m := by
  induction rules generalizing m with
  | nil => rfl
  | cons o rs ih =>
    by_cases hv : (IsValidSystemRule o).isSome
    · rw [List.foldl_cons, addCandidate_invalid m o hv, ih, acceptedRules_cons]
      simp [hv]
    · have hvn : IsValidSystemRule o = none := Option.not_isSome_iff_eq_none.mp hv
      match o with
      | none => simp [IsValidSystemRule] at hvn
      | some r =>
        rw [List.foldl_cons, ih, acceptedRules_cons]
        simp [hv]

lemma buildRuleMap_accepted (rules : List (Option Rule)) :
    buildRuleMap rules = buildRuleMap ((acceptedRules rules).map some) := by
  rw [buildRuleMap_eq_foldl, buildRuleMap_eq_foldl]
  exact foldl_addCandidate_accepted rules []

lemma isValid_some_iff (r : Rule) :
    IsValidSystemRule (some r) = none ↔
      0 ≤ r.TriggerCount ∧ r.MetricType < MetricTypeSize ∧
        (r.MetricType = CpuUsage → r.TriggerCount ≤ 1) := by
  simp only [IsValidSystemRule]
  by_cases h1 : r.TriggerCount < 0
  · simp [h1, not_le.mpr h1]
  · by_cases h2 : r.MetricType ≥ MetricTypeSize
    · simp [h1, h2, not_lt.mpr h2]
    · by_cases h3 : r.MetricType = CpuUsage ∧ r.TriggerCount > 1
      · simp only [h1, if_false, h2, if_false, h3, if_true]
        simp [h3.1, not_le.mpr h3.2, CpuUsage, MetricTypeSize]
      · simp only [h1, if_false, h2, if_false, h3, if_false]
        constructor
        · intro _
          refine ⟨not_lt.mp h1, not_le.mp h2, fun hc => ?_⟩
          by_contra hgt
          exact h3 ⟨hc, not_le.mp hgt⟩
        · intro _
          trivial

/-! ### Claim theorems -/

/-- C1: for every sequence `R` of rules that all pass validation, `LoadRules R`
with the default update handler succeeds and a subsequent `GetRules` returns
exactly the rules of `R` (as a multiset, hence as a set: every rule of `R`
appears, nothing else appears), and in the installed index every rule sits in
the bucket keyed by its own `MetricType`. -/
theorem loadRules_valid_snapshot (R : List (Option Rule)) (s : SysState)
    (hv : ∀ o ∈ R, IsValidSystemRule o = none) :
    List.Perm (GetRules (LoadRules defaultRuleUpdateHandler R s).2) (R.filterMap id) ∧
    ∀ p ∈ (LoadRules defaultRuleUpdateHandler R s).2, ∀ r ∈ p.2, r.MetricType = p.1 := by
  rw [loadRules_default]
  constructor
  · simpa [acceptedRules_all_valid R hv] using getRules_buildRuleMap R
  · intro p hp r hr
    exact (wellBucketed_buildRuleMap R p hp r hr).1

/-- C1 witness: a concrete all-valid load evaluated to the end. -/
theorem loadRules_valid_snapshot_witness :
    (∀ o ∈ ([some ⟨0, 5⟩, some ⟨4, 1⟩, some ⟨0, 3⟩] : List (Option Rule)),
      IsValidSystemRule o = none) ∧
    (List.Perm
      (GetRules (LoadRules defaultRuleUpdateHandler
        [some ⟨0, 5⟩, some ⟨4, 1⟩, some ⟨0, 3⟩] []).2)
      (([some ⟨0, 5⟩, some ⟨4, 1⟩, some ⟨0, 3⟩] : List (Option Rule)).filterMap id) ∧
    ∀ p ∈ (LoadRules defaultRuleUpdateHandler
        [some ⟨0, 5⟩, some ⟨4, 1⟩, some ⟨0, 3⟩] []).2, ∀ r ∈ p.2, r.MetricType = p.1) :=
  ⟨by decide, loadRules_valid_snapshot _ [] (by decide)⟩

/-- C2 counterexample: the claim fails for a handler that invokes the installer
callback and only then reports an error: `LoadRules` returns `(false, err)`
but the previously active index `[(0, [⟨0, 5⟩])]` has been replaced by the
new (here empty) index, an observable change. -/
theorem loadRules_handler_error_counterexample :
    LoadRules installThenFailHandler [] [(0, [⟨0, 5⟩])] =
      ((false, some "handler failed after install"), []) ∧
    GetRules ([] : SysState) ≠ GetRules [(0, [(⟨0, 5⟩ : Rule)])] := by
  constructor
  · rfl
  · decide

/-- C2 (amended): if the registered handler reports an error without having
invoked the installer callback (the shape `checkedHandler check`, which vets
the candidate index and either rejects it untouched or delegates), then
`LoadRules` returns `(false, that error)` and the active index is exactly
what it was before the call. -/
theorem loadRules_handler_error_no_change (check : RuleMap → Option Err)
    (R : List (Option Rule)) (s : SysState) (e : Err)
    (h : check (buildRuleMap R) = some e) :
    LoadRules (checkedHandler check) R s = ((false, some e), s) := by
  simp only [LoadRules, checkedHandler, h]

/-- C2 witness: a concrete rejecting handler leaves a concrete store intact. -/
theorem loadRules_handler_error_no_change_witness :
    ((fun _ : RuleMap => some "update rejected") (buildRuleMap ([] : List (Option Rule)))
        = some "update rejected") ∧
    LoadRules (checkedHandler (fun _ : RuleMap => some "update rejected")) []
        [(0, [⟨0, 5⟩])] =
      ((false, some "update rejected"), [(0, [(⟨0, 5⟩ : Rule)])]) :=
  ⟨rfl, loadRules_handler_error_no_change _ [] [(0, [⟨0, 5⟩])] _ rfl⟩

/-- C3: `IsValidSystemRule` accepts exactly the non-nil rules with
non-negative threshold and in-range metric type whose threshold does not
exceed 1 when the type is CPU usage; in particular a CPU rule at exactly 1.0
is valid, one at 1.0001 is rejected, threshold -1 is rejected for every
metric type, and an out-of-range metric type is rejected for every
threshold. -/
theorem isValidSystemRule_characterization :
    (∀ o : Option Rule, IsValidSystemRule o = none ↔
      ∃ r : Rule, o = some r ∧ 0 ≤ r.TriggerCount ∧ r.MetricType < MetricTypeSize ∧
        (r.MetricType = CpuUsage → r.TriggerCount ≤ 1)) ∧
    IsValidSystemRule (some ⟨CpuUsage, 1⟩) = none ∧
    (IsValidSystemRule (some ⟨CpuUsage, 10001/10000⟩)).isSome ∧
    (∀ t : Nat, (IsValidSystemRule (some ⟨t, -1⟩)).isSome) ∧
    (∀ q : ℚ, (IsValidSystemRule (some ⟨MetricTypeSize, q⟩)).isSome) := by
  refine ⟨?_, ?_, ?_, ?_, ?_⟩
  · intro o
    match o with
    | none =>
      simp [IsValidSystemRule]
    | some r =>
      rw [isValid_some_iff]
      constructor
      · intro h
        exact ⟨r, rfl, h⟩
      · rintro ⟨r', hr', h⟩
        obtain rfl : r' = r := by injection hr'.symm
        exact h
  · decide
  · have h1 : (1 : ℚ) < 10001/10000 := by norm_num
    simp [IsValidSystemRule, CpuUsage, MetricTypeSize, h1, not_lt.mpr (le_of_lt (by norm_num : (0:ℚ) < 10001/10000))]
  · intro t
    simp [IsValidSystemRule, (by norm_num : (-1 : ℚ) < 0)]
  · intro q
    by_cases hq : q < 0 <;> simp [IsValidSystemRule, MetricTypeSize, hq]

/-- C3 witness: the characterization applied at the concrete boundary rule
with metric type CPU usage and threshold exactly 1. -/
theorem isValidSystemRule_characterization_witness :
    IsValidSystemRule (some ⟨CpuUsage, 1⟩) = none :=
  (isValidSystemRule_characterization.1 (some ⟨CpuUsage, 1⟩)).mpr
    ⟨⟨CpuUsage, 1⟩, rfl, by norm_num, by norm_num [CpuUsage, MetricTypeSize], fun _ => le_refl 1⟩

/-- C4: for every candidate list mixing valid and invalid rules, `LoadRules`
with the default handler succeeds, the snapshot contains exactly the valid
candidates (invalid ones absent, valid ones present), every rule in the
installed index has passed validation, and the built index depends only on
the accepted valid rules (so it is unaffected by how many invalid rules are
present or where they sit). -/
theorem loadRules_mixed (R : List (Option Rule)) (s : SysState) :
    (LoadRules defaultRuleUpdateHandler R s).1 = (true, none) ∧
    List.Perm (GetRules (LoadRules defaultRuleUpdateHandler R s).2) (acceptedRules R) ∧
    (∀ p ∈ (LoadRules defaultRuleUpdateHandler R s).2, ∀ r ∈ p.2,
      IsValidSystemRule (some r) = none) ∧
    buildRuleMap R = buildRuleMap ((acceptedRules R).map some) := by
  rw [loadRules_default]
  refine ⟨rfl, getRules_buildRuleMap R, ?_, buildRuleMap_accepted R⟩
  intro p hp r hr
  exact (wellBucketed_buildRuleMap R p hp r hr).2

/-- C5: `ClearRules` is `LoadRules` of the empty candidate list: the built
index of an empty input is empty, and (with the default handler) `ClearRules`
returns no error and a subsequent `GetRules` returns the empty sequence,
whatever rules were active before. -/
theorem clearRules_empties_store :
    buildRuleMap [] = [] ∧
    (∀ (h : Handler) (s : SysState),
      ClearRules h s = ((LoadRules h [] s).1.2, (LoadRules h [] s).2)) ∧
    (∀ s : SysState, ClearRules defaultRuleUpdateHandler s = (none, []) ∧
      GetRules (ClearRules defaultRuleUpdateHandler s).2 = []) :=
  ⟨rfl, fun _ _ => rfl, fun _ => ⟨rfl, rfl⟩⟩

/-- C7: in the index built by `buildRuleMap`, the bucket of metric type `k`
is absent when no accepted rule has type `k` (buckets are created lazily),
and otherwise holds exactly the accepted rules of type `k` in the order they
occurred in the candidate input list. -/
theorem buildRuleMap_bucket_order (R : List (Option Rule)) (k : Nat) :
    mapFind (buildRuleMap R) k =
      if typeBucket R k = [] then none else some (typeBucket R k) :=
  mapFind_buildRuleMap R k

/-- C8: loading the same candidate list twice in a row with the default
handler is idempotent: the snapshot after the second load equals the snapshot
after the first (both installed indices are equal as well). -/
theorem loadRules_idempotent (R : List (Option Rule)) (s : SysState) :
    GetRules (LoadRules defaultRuleUpdateHandler R
        (LoadRules defaultRuleUpdateHandler R s).2).2 =
      GetRules (LoadRules defaultRuleUpdateHandler R s).2 := by
  rw [loadRules_default, loadRules_default]

/-- C9: if every candidate fails validation (in particular when the list is
empty), `LoadRules` with the default handler still succeeds and installs the
empty index, wiping all previously active rules — indistinguishable from
`ClearRules`. -/
theorem loadRules_all_invalid_clears (R : List (Option Rule)) (s : SysState)
    (h : ∀ o ∈ R, (IsValidSystemRule o).isSome) :
    LoadRules defaultRuleUpdateHandler R s = ((true, none), []) ∧
    GetRules (LoadRules defaultRuleUpdateHandler R s).2 = [] ∧
    (LoadRules defaultRuleUpdateHandler R s).2 =
      (ClearRules defaultRuleUpdateHandler s).2 := by
  have hb := buildRuleMap_all_invalid R h
  refine ⟨?_, ?_, ?_⟩
  · rw [loadRules_default, hb]
  · rw [loadRules_default, hb]
    rfl
  · rw [loadRules_default, hb]
    rfl

/-- C9 witness: a nil pointer plus an out-of-range rule wipe a non-empty
store. -/
theorem loadRules_all_invalid_clears_witness :
    (∀ o ∈ ([none, some ⟨7, 2⟩] : List (Option Rule)), (IsValidSystemRule o).isSome) ∧
    (LoadRules defaultRuleUpdateHandler [none, some ⟨7, 2⟩] [(0, [⟨0, 5⟩])] =
        ((true, none), []) ∧
      GetRules (LoadRules defaultRuleUpdateHandler [none, some ⟨7, 2⟩]
          [(0, [⟨0, 5⟩])]).2 = [] ∧
      (LoadRules defaultRuleUpdateHandler [none, some ⟨7, 2⟩] [(0, [⟨0, 5⟩])]).2 =
        (ClearRules defaultRuleUpdateHandler [(0, [⟨0, 5⟩])]).2) :=
  ⟨by decide, loadRules_all_invalid_clears _ _ (by decide)⟩

/-- C10: with the default update handler, `LoadRules` returns `(true, nil)` on
every possible input and every prior store state, and installs the built
index: the failure branch is unreachable because `onRuleUpdate`
unconditionally returns nil and the default handler merely forwards it. -/
theorem loadRules_default_never_fails (R : List (Option Rule)) (s : SysState) :
    LoadRules defaultRuleUpdateHandler R s = ((true, none), buildRuleMap R) :=
  loadRules_default R s

/-- C6: `GetRules` returns value copies. In the pointer-level model the
returned slice lives in freshly allocated cells: every address the caller
receives lies outside the store's index, and overwriting any of those cells
(mutating the returned slice or the fields of its elements) leaves a
subsequent snapshot equal to the one taken before the mutation. The
well-formedness hypothesis says every pointer in the store's index refers to
an allocated heap cell. -/
theorem getRulesCopy_isolated (st : Store)
    (hwf : ∀ b ∈ st.bucketAddrs, b < st.heap.length)
    (a : Nat) (ha : a ∈ (st.getRulesAlloc).1) (v : Rule) :
    a ∉ st.bucketAddrs ∧
    ((st.getRulesAlloc).2.writeAt a v).getRulesCopy = st.getRulesCopy := by
  simp only [Store.getRulesAlloc, List.mem_map, List.mem_range] at ha
  obtain ⟨i, hi, rfl⟩ := ha
  constructor
  · intro hmem
    have := hwf _ hmem
    omega
  · simp only [Store.getRulesCopy, Store.getRulesAlloc, Store.writeAt, Store.bucketAddrs]
    apply List.map_congr_left
    intro b hb
    have hblt : b < st.heap.length := hwf b hb
    rw [List.getD_eq_getElem?_getD, List.getD_eq_getElem?_getD,
      List.getElem?_set_ne (by omega), List.getElem?_append_left hblt]

/-- C6 witness: a concrete one-rule store; the single returned cell sits at
address 1, outside the store, and overwriting it does not alter the
snapshot. -/
theorem getRulesCopy_isolated_witness :
    (∀ b ∈ (⟨[⟨0, 1⟩], [(0, [0])]⟩ : Store).bucketAddrs,
      b < (⟨[⟨0, 1⟩], [(0, [0])]⟩ : Store).heap.length) ∧
    1 ∈ ((⟨[⟨0, 1⟩], [(0, [0])]⟩ : Store).getRulesAlloc).1 ∧
    (1 ∉ (⟨[⟨0, 1⟩], [(0, [0])]⟩ : Store).bucketAddrs ∧
      (((⟨[⟨0, 1⟩], [(0, [0])]⟩ : Store).getRulesAlloc).2.writeAt 1 ⟨0, 2⟩).getRulesCopy =
        (⟨[⟨0, 1⟩], [(0, [0])]⟩ : Store).getRulesCopy) :=
  ⟨by decide, by decide, getRulesCopy_isolated _ (by decide) 1 (by decide) ⟨0, 2⟩⟩

end SentinelSystem
